import Mathlib

/-!
Verification of the streaming copy-and-clean transform of `osmium cat`
(`src/command_cat.cpp`).  The external OSM library (libosmium) supplies the
reader/writer abstractions; chunks of decoded entities are modelled as lists,
and the buffer mutation performed by `CommandCat::copy` is modelled as a pure
function on those lists.
-/

namespace OsmiumCat

/-- The four OSM entity kinds a reader can yield (`osmium::item_type` as far
as this command observes it): nodes, ways, relations and changesets. -/
inductive ItemType where
  | node
  | way
  | relation
  | changeset
deriving DecidableEq, Repr

/-- One decoded OSM entity inside a buffer.  Fields `version`, `changeset`,
`timestamp`, `uid` and `user` are the five metadata attributes the clean option
can reset; `id`, `tags` and `geometry` (node location, way node references or
relation members, abstracted as a list of integers) are the remaining payload.
The unset timestamp (`osmium::Timestamp()`) is represented by `0`. -/
structure Entity where
  etype : ItemType
  id : Int
  version : Nat
  changeset : Nat
  timestamp : Nat
  uid : Nat
  user : String
  tags : List (String × String)
  geometry : List Int
deriving DecidableEq, Repr

/-- In libosmium, `osmium::OSMObject` is the common base of `Node`, `Way` and
`Relation`; `osmium::Changeset` derives from `OSMEntity` directly and is NOT
an `OSMObject`.  Hence `buffer.select<osmium::OSMObject>()` in
`CommandCat::copy` iterates exactly the node/way/relation items of a buffer
and skips changeset items. -/
def Entity.is_osm_object (e : Entity) : Bool :=
  match e.etype with
  | ItemType.node => true
  | ItemType.way => true
  | ItemType.relation => true
  | ItemType.changeset => false

/-- Modelled from the spec: the `clean_options` bitmask declared in
`command_cat.hpp` (only `command_cat.cpp` is available).  The spec describes
it as a set of flags, one per attribute among version, changeset, timestamp,
uid and user, which is exactly what this structure is; the concrete bit
values of the enum are irrelevant to every use in `command_cat.cpp`. -/
structure CleanOptions where
  clean_version : Bool
  clean_changeset : Bool
  clean_timestamp : Bool
  clean_uid : Bool
  clean_user : Bool
deriving DecidableEq, Repr

/-- The all-clear bitmask (`m_clean_attrs` before `setup` sets any flag). -/
def CleanOptions.zero : CleanOptions :=
  { clean_version := false
    clean_changeset := false
    clean_timestamp := false
    clean_uid := false
    clean_user := false }

/-- Models the C++ truthiness test `if (m_clean_attrs)`: the bitmask is
nonzero iff at least one flag is set. -/
def CleanOptions.nonzero (a : CleanOptions) : Bool :=
  a.clean_version || a.clean_changeset || a.clean_timestamp || a.clean_uid || a.clean_user

/-- The body of the per-object loop of `CommandCat::copy`
(`command_cat.cpp:135-149`): for each set flag, overwrite the corresponding
field with its cleared value, in source order (version, changeset, timestamp,
uid, user). -/
def clean_object (attrs : CleanOptions) (o : Entity) : Entity :=
  let o1 := if attrs.clean_version then { o with version := 0 } else o
  let o2 := if attrs.clean_changeset then { o1 with changeset := 0 } else o1
  let o3 := if attrs.clean_timestamp then { o2 with timestamp := 0 } else o2
  let o4 := if attrs.clean_uid then { o3 with uid := 0 } else o3
  if attrs.clean_user then { o4 with user := "" } else o4

/-- The per-buffer transform of `CommandCat::copy` (`command_cat.cpp:133-151`):
when the bitmask is nonzero, every item selected by
`buffer.select<osmium::OSMObject>()` (nodes, ways, relations; not changesets)
is cleaned in place; otherwise the buffer passes through untouched. -/
def clean_buffer (attrs : CleanOptions) (buffer : List Entity) : List Entity :=
  if attrs.nonzero then
    buffer.map (fun e => if e.is_osm_object then clean_object attrs e else e)
  else
    buffer

/-- The read-clean-write loop of `CommandCat::copy` (`command_cat.cpp:129-155`):
the reader yields buffers until exhaustion, each buffer is (possibly) cleaned
and forwarded to the writer in order. -/
def copy (attrs : CleanOptions) : List (List Entity) → List (List Entity)
  | [] => []
  | buffer :: rest => clean_buffer attrs buffer :: copy attrs rest

/-- One message on the verbose output stream `m_vout` as far as
`CommandCat::run` emits them: the per-file copying banner, the final size
report, the memory report of `show_memory_used`, and the completion marker. -/
inductive Msg where
  | copying
  | wrote (bytes : Nat)
  | memory
  | done
deriving DecidableEq, Repr

/-- The observable outcome of `CommandCat::run`: the stream of buffers handed
to the writer, the verbose messages, and the boolean return value. -/
structure RunResult where
  output : List (List Entity)
  messages : List Msg
  result : Bool
deriving Repr

/-- The orchestrator `CommandCat::run` (`command_cat.cpp:157-201`).  Inputs
are the decoded chunk streams of the input files, in command-line order;
`close_bytes` abstracts the byte total returned by `writer.close()`.  The
single-file branch (`m_input_files.size() == 1`) and the multi-file branch
both funnel every input through `copy` into one writer; afterwards the size
is reported only when positive, memory usage is shown, and the completion
marker is printed.  `run` returns `true` unconditionally. -/
def run (attrs : CleanOptions) (files : List (List (List Entity)))
    (close_bytes : Nat) : RunResult :=
  if files.length = 1 then
    { output := copy attrs (files.headD [])
      messages := [Msg.copying] ++
        (if 0 < close_bytes then [Msg.wrote close_bytes] else []) ++
        [Msg.memory, Msg.done]
      result := true }
  else
    { output := (files.map (copy attrs)).flatten
      messages := (files.map (fun _ => Msg.copying)) ++
        (if 0 < close_bytes then [Msg.wrote close_bytes] else []) ++
        [Msg.memory, Msg.done]
      result := true }

/-- Recognition test for values of the repeatable clean option
(`command_cat.cpp:77-89`): the five accepted attribute names. -/
def is_recognized_clean (c : String) : Bool :=
  c == "version" || c == "changeset" || c == "timestamp" || c == "uid" || c == "user"

/-- One iteration of the clean-option loop in `CommandCat::setup`
(`command_cat.cpp:76-90`): a recognized name sets its flag via bitwise or; an
unrecognized name throws `argument_error`. -/
def apply_clean_value (attrs : CleanOptions) (c : String) : Except String CleanOptions :=
  if c = "version" then Except.ok { attrs with clean_version := true }
  else if c = "changeset" then Except.ok { attrs with clean_changeset := true }
  else if c = "timestamp" then Except.ok { attrs with clean_timestamp := true }
  else if c = "uid" then Except.ok { attrs with clean_uid := true }
  else if c = "user" then Except.ok { attrs with clean_user := true }
  else Except.error ("Unknown attribute on -c/--clean option: " ++ c)

/-- The whole clean-option loop of `CommandCat::setup`
(`command_cat.cpp:75-91`): fold the supplied values over the bitmask,
stopping at the first unrecognized one with an `argument_error`. -/
def setup_clean : List String → CleanOptions → Except String CleanOptions
  | [], attrs => Except.ok attrs
  | c :: rest, attrs =>
    match apply_clean_value attrs c with
    | Except.ok attrs2 => setup_clean rest attrs2
    | Except.error e => Except.error e

/-- Boolean success test for an `Except` result. -/
def except_ok {ε α : Type} : Except ε α → Bool
  | Except.ok _ => true
  | Except.error _ => false

/-- The setup-then-run pipeline as the CLI layer drives it: `run` is reached
only when `setup` did not throw, so a rejected configuration never starts
execution and produces no output stream. -/
def command_pipeline (clean_values : List String)
    (files : List (List (List Entity))) (close_bytes : Nat) :
    Except String RunResult :=
  match setup_clean clean_values CleanOptions.zero with
  | Except.error e => Except.error e
  | Except.ok attrs => Except.ok (run attrs files close_bytes)

/-- The five primitive clearing operations of the loop body
(`command_cat.cpp:135-149`), as standalone object transformers. -/
inductive CleanOp where
  | version
  | changeset
  | timestamp
  | uid
  | user
deriving DecidableEq, Repr

/-- What each primitive clearing operation does to an object:
`set_version(0)`, `set_changeset(0)`, `set_timestamp(Timestamp())`,
`set_uid(0)`, `clear_user()`. -/
def CleanOp.apply : CleanOp → Entity → Entity
  | CleanOp.version, o => { o with version := 0 }
  | CleanOp.changeset, o => { o with changeset := 0 }
  | CleanOp.timestamp, o => { o with timestamp := 0 }
  | CleanOp.uid, o => { o with uid := 0 }
  | CleanOp.user, o => { o with user := "" }

/-- Apply a sequence of primitive clearing operations left to right. -/
def apply_clean_ops (l : List CleanOp) (o : Entity) : Entity :=
  l.foldl (fun o op => CleanOp.apply op o) o

/-- Refinement target for the per-object clean, written from the spec: each
attribute in the set is reset to its cleared value (version 0, changeset 0,
unset timestamp, uid 0, empty user name) and every other field (etype, id,
tags, geometry and the unselected attributes) is left unchanged. -/
def clean_object_spec (attrs : CleanOptions) (o : Entity) : Entity :=
  { o with
    version := if attrs.clean_version then 0 else o.version
    changeset := if attrs.clean_changeset then 0 else o.changeset
    timestamp := if attrs.clean_timestamp then 0 else o.timestamp
    uid := if attrs.clean_uid then 0 else o.uid
    user := if attrs.clean_user then "" else o.user }

/-- Boolean membership of a string in a list of strings (used to state which
attribute names occur among the clean option values). -/
def mem_str (s : String) : List String → Bool
  | [] => false
  | c :: rest => if c = s then true else mem_str s rest

/-- Number of completion markers in a verbose message stream. -/
def count_done : List Msg → Nat
  | [] => 0
  | Msg.done :: rest => count_done rest + 1
  | _ :: rest => count_done rest

/-- Sample node entity, with the user name and uid of the spec scenario. -/
def sample_node : Entity :=
  { etype := ItemType.node
    id := 17
    version := 3
    changeset := 9
    timestamp := 100
    uid := 42
    user := "alice"
    tags := [("highway", "residential")]
    geometry := [5] }

/-- Sample changeset entity carrying the same metadata attribute values. -/
def sample_changeset : Entity :=
  { etype := ItemType.changeset
    id := 7
    version := 1
    changeset := 7
    timestamp := 200
    uid := 42
    user := "alice"
    tags := []
    geometry := [] }

/-- The clean attribute set of the spec scenario: user and uid. -/
def clean_user_uid : CleanOptions :=
  { clean_version := false
    clean_changeset := false
    clean_timestamp := false
    clean_uid := true
    clean_user := true }

/-- A clean attribute set with only the uid flag. -/
def clean_uid_only : CleanOptions :=
  { clean_version := false
    clean_changeset := false
    clean_timestamp := false
    clean_uid := true
    clean_user := false }

/-! Helper lemmas shared by the claim theorems. -/

/-- Pointwise equal functions map a list to the same result. -/
theorem list_map_congr {α β : Type} (f g : α → β) (l : List α)
    (h : ∀ a ∈ l, f a = g a) : l.map f = l.map g := by
  induction l with
  | nil => rfl
  | cons x xs ih =>
    simp only [List.map_cons]
    rw [h x (List.mem_cons_self x xs), ih (fun a ha => h a (List.mem_cons_of_mem x ha))]

/-- The per-object clean equals its spec form: each flagged field cleared,
everything else untouched. -/
theorem clean_object_eq_spec (attrs : CleanOptions) (o : Entity) :
    clean_object attrs o = clean_object_spec attrs o := by
  obtain ⟨v, c, t, u, n⟩ := attrs
  cases v <;> cases c <;> cases t <;> cases u <;> cases n <;> rfl

/-- A bitmask that tests as zero is the all-clear bitmask. -/
theorem nonzero_false_eq_zero (a : CleanOptions) (h : a.nonzero = false) :
    a = CleanOptions.zero := by
  obtain ⟨v, c, t, u, n⟩ := a
  simp only [CleanOptions.nonzero, Bool.or_eq_false_iff] at h
  obtain ⟨⟨⟨⟨hv, hc⟩, ht⟩, hu⟩, hn⟩ := h
  subst hv hc ht hu hn
  rfl

/-- With the all-clear bitmask the spec-form clean changes nothing. -/
theorem clean_object_spec_zero (o : Entity) :
    clean_object_spec CleanOptions.zero o = o := rfl

/-- `copy` is `map` of the per-buffer transform over the stream of buffers. -/
theorem copy_eq_map (attrs : CleanOptions) (buffers : List (List Entity)) :
    copy attrs buffers = buffers.map (clean_buffer attrs) := by
  induction buffers with
  | nil => rfl
  | cons b rest ih => simp [copy, ih]

/-- With a zero bitmask, `copy` forwards every buffer untouched. -/
theorem copy_id (attrs : CleanOptions) (h : attrs.nonzero = false)
    (buffers : List (List Entity)) : copy attrs buffers = buffers := by
  induction buffers with
  | nil => rfl
  | cons b rest ih => simp [copy, clean_buffer, h, ih]

/-- The output stream of `run` is the concatenation of the copied inputs,
in both the single-file and the multi-file branch. -/
theorem run_output_eq (attrs : CleanOptions) (files : List (List (List Entity)))
    (close_bytes : Nat) :
    (run attrs files close_bytes).output = (files.map (copy attrs)).flatten := by
  match files with
  | [] => simp [run]
  | [f] => simp [run]
  | f1 :: f2 :: rest => simp [run]

/-- The verbose message stream of `run`: one copying banner per input file,
the size report when positive, the memory report, the completion marker. -/
theorem run_messages_eq (attrs : CleanOptions) (files : List (List (List Entity)))
    (close_bytes : Nat) :
    (run attrs files close_bytes).messages =
      (files.map (fun _ => Msg.copying)) ++
        (if 0 < close_bytes then [Msg.wrote close_bytes] else []) ++
        [Msg.memory, Msg.done] := by
  match files with
  | [] => simp [run]
  | [f] => simp [run]
  | f1 :: f2 :: rest => simp [run]

/-- `count_done` distributes over list append. -/
theorem count_done_append (l1 l2 : List Msg) :
    count_done (l1 ++ l2) = count_done l1 + count_done l2 := by
  induction l1 with
  | nil => simp [count_done]
  | cons x xs ih =>
    cases x with
    | copying => simp [count_done, ih]
    | wrote b => simp [count_done, ih]
    | memory => simp [count_done, ih]
    | done =>
      simp [count_done, ih]
      omega

/-- The copying banners contain no completion marker. -/
theorem count_done_copyings (files : List (List (List Entity))) :
    count_done (files.map (fun _ => Msg.copying)) = 0 := by
  induction files with
  | nil => rfl
  | cons f rest ih => simpa [count_done] using ih

/-- Object count of a flattened stream is the sum per file. -/
theorem flatten_object_count (files : List (List (List Entity))) :
    ((files.flatten.map List.length).sum =
      (files.map (fun f => (f.map List.length).sum)).sum) := by
  induction files with
  | nil => rfl
  | cons f rest ih =>
    simp only [List.flatten_cons, List.map_append, List.sum_append, List.map_cons,
      List.sum_cons, ih]

/-- The primitive clearing operations commute pairwise: each one overwrites a
distinct field. -/
theorem cleanOp_apply_comm (a b : CleanOp) (o : Entity) :
    CleanOp.apply b (CleanOp.apply a o) = CleanOp.apply a (CleanOp.apply b o) := by
  cases a <;> cases b <;> rfl

/-! The claim theorems. -/

/-- C1: for every chunk of OSM objects and every subset S of the five clean
attributes, the transform produces objects identical to the input except that
each attribute in S is reset to its cleared value (version 0, changeset 0,
unset timestamp, uid 0, empty user name) while id, tags, geometry and type
are unchanged — this is exactly `clean_object_spec`. -/
theorem cat_clean_clears_exactly_selected (attrs : CleanOptions)
    (chunk : List Entity) (h : ∀ e ∈ chunk, e.is_osm_object = true) :
    clean_buffer attrs chunk = chunk.map (clean_object_spec attrs) := by
  unfold clean_buffer
  by_cases hnz : attrs.nonzero = true
  · rw [if_pos hnz]
    exact list_map_congr _ _ chunk (fun e he => by
      rw [if_pos (h e he), clean_object_eq_spec])
  · rw [if_neg hnz, nonzero_false_eq_zero attrs (Bool.eq_false_iff.mpr hnz)]
    exact ((list_map_congr _ id chunk (fun e _ => clean_object_spec_zero e)).trans
      (List.map_id chunk)).symm

/-- Witness for C1, instantiating the spec scenario: clean set user and uid
on a node with user name alice and uid 42 gives user name empty and uid 0,
all other fields unchanged. -/
theorem cat_clean_clears_exactly_selected_witness :
    (∀ e ∈ [sample_node], e.is_osm_object = true) ∧
    clean_buffer clean_user_uid [sample_node] =
      [sample_node].map (clean_object_spec clean_user_uid) ∧
    clean_buffer clean_user_uid [sample_node] =
      [{ sample_node with uid := 0, user := "" }] :=
  ⟨by decide,
   cat_clean_clears_exactly_selected clean_user_uid [sample_node] (by decide),
   by decide⟩

/-- C3: an empty clean attribute set makes the copy transform the identity
on the stream of buffers. -/
theorem cat_copy_empty_clean_is_identity (attrs : CleanOptions)
    (buffers : List (List Entity)) (h : attrs.nonzero = false) :
    copy attrs buffers = buffers :=
  copy_id attrs h buffers

/-- Witness for C3 at a concrete two-buffer stream. -/
theorem cat_copy_empty_clean_is_identity_witness :
    CleanOptions.zero.nonzero = false ∧
    copy CleanOptions.zero [[sample_node], [sample_changeset]] =
      [[sample_node], [sample_changeset]] :=
  ⟨by decide,
   cat_copy_empty_clean_is_identity CleanOptions.zero
     [[sample_node], [sample_changeset]] (by decide)⟩

/-- C4: the per-object clean is idempotent — applying it twice with the same
attribute set equals applying it once. -/
theorem cat_clean_object_idempotent (attrs : CleanOptions) (o : Entity) :
    clean_object attrs (clean_object attrs o) = clean_object attrs o := by
  obtain ⟨v, c, t, u, n⟩ := attrs
  cases v <;> cases c <;> cases t <;> cases u <;> cases n <;> rfl

/-- C5: the five per-attribute clearing operations commute — applying any
sequence of them in any order (any permutation) yields the same object. -/
theorem cat_clean_ops_order_insensitive (l1 l2 : List CleanOp) (o : Entity)
    (h : l1.Perm l2) :
    apply_clean_ops l1 o = apply_clean_ops l2 o := by
  induction h generalizing o with
  | nil => rfl
  | cons x _ ih => exact ih (CleanOp.apply x o)
  | swap x y l =>
    show List.foldl _ (CleanOp.apply x (CleanOp.apply y o)) l =
      List.foldl _ (CleanOp.apply y (CleanOp.apply x o)) l
    rw [cleanOp_apply_comm y x o]
  | trans _ _ ih1 ih2 => exact (ih1 o).trans (ih2 o)

/-- Witness for C5: clearing uid then user equals clearing user then uid on
the sample node, and both equal the node with uid 0 and empty user. -/
theorem cat_clean_ops_order_insensitive_witness :
    apply_clean_ops [CleanOp.uid, CleanOp.user] sample_node =
      apply_clean_ops [CleanOp.user, CleanOp.uid] sample_node ∧
    apply_clean_ops [CleanOp.uid, CleanOp.user] sample_node =
      { sample_node with uid := 0, user := "" } :=
  ⟨cat_clean_ops_order_insensitive [CleanOp.uid, CleanOp.user]
     [CleanOp.user, CleanOp.uid] sample_node
     (List.Perm.swap CleanOp.user CleanOp.uid []),
   by decide⟩

/-- C2 counterexample: with the non-empty clean set containing only uid, a
chunk holding a changeset entity with uid 42 passes through the transform
completely unchanged — its flagged uid attribute is NOT reset to 0, contrary
to the claim, because `buffer.select<osmium::OSMObject>()` skips changesets. -/
theorem cat_changeset_not_cleaned :
    clean_uid_only.nonzero = true ∧
    sample_changeset.etype = ItemType.changeset ∧
    sample_changeset.uid = 42 ∧
    clean_buffer clean_uid_only [sample_changeset] = [sample_changeset] := by
  decide

/-- C2 amended: when the clean attribute set is non-empty, the transform
applies the active attribute clears to every node, way and relation in the
chunk, while changeset entities are forwarded unchanged (an osmium changeset
is not an `OSMObject`, so the selecting iterator never visits it). -/
theorem cat_clean_applies_per_object_kind (attrs : CleanOptions)
    (chunk : List Entity) (h : attrs.nonzero = true) :
    clean_buffer attrs chunk = chunk.map (fun e =>
      if e.etype = ItemType.changeset then e else clean_object attrs e) := by
  unfold clean_buffer
  rw [if_pos h]
  refine list_map_congr _ _ chunk (fun e _ => ?_)
  cases he : e.etype <;> simp [Entity.is_osm_object, he]

/-- Witness for C2 amended: a mixed chunk of one node and one changeset under
the uid-only clean set — the node's uid is cleared, the changeset is kept. -/
theorem cat_clean_applies_per_object_kind_witness :
    clean_uid_only.nonzero = true ∧
    clean_buffer clean_uid_only [sample_node, sample_changeset] =
      [sample_node, sample_changeset].map (fun e =>
        if e.etype = ItemType.changeset then e else clean_object clean_uid_only e) ∧
    clean_buffer clean_uid_only [sample_node, sample_changeset] =
      [{ sample_node with uid := 0 }, sample_changeset] :=
  ⟨by decide,
   cat_clean_applies_per_object_kind clean_uid_only [sample_node, sample_changeset]
     (by decide),
   by decide⟩

/-- A recognized clean value sets a flag and succeeds. -/
theorem apply_clean_value_ok (attrs : CleanOptions) (c : String)
    (h : is_recognized_clean c = true) :
    ∃ a2, apply_clean_value attrs c = Except.ok a2 := by
  simp only [is_recognized_clean, Bool.or_eq_true, beq_iff_eq] at h
  rcases h with (((h1 | h1) | h1) | h1) | h1 <;> subst h1 <;>
    simp [apply_clean_value]

/-- An unrecognized clean value makes the setup loop throw argument_error. -/
theorem apply_clean_value_error (attrs : CleanOptions) (c : String)
    (h : is_recognized_clean c = false) :
    apply_clean_value attrs c =
      Except.error ("Unknown attribute on -c/--clean option: " ++ c) := by
  simp only [is_recognized_clean, Bool.or_eq_false_iff, beq_eq_false_iff_ne, ne_eq] at h
  obtain ⟨⟨⟨⟨h1, h2⟩, h3⟩, h4⟩, h5⟩ := h
  simp [apply_clean_value, h1, h2, h3, h4, h5]

/-- The clean-option loop succeeds (from any starting bitmask) iff every
supplied value is one of the five recognized attribute names. -/
theorem setup_clean_ok_iff (values : List String) (attrs : CleanOptions) :
    except_ok (setup_clean values attrs) = true ↔
      ∀ v ∈ values, is_recognized_clean v = true := by
  induction values generalizing attrs with
  | nil => simp [setup_clean, except_ok]
  | cons c rest ih =>
    cases hr : is_recognized_clean c with
    | true =>
      obtain ⟨a2, ha⟩ := apply_clean_value_ok attrs c hr
      simp [setup_clean, ha, ih a2, hr]
    | false =>
      simp only [setup_clean, apply_clean_value_error attrs c hr]
      simp [except_ok, hr]

/-- C6: setup accepts the clean values iff each one is among the five
recognized attribute names; if some value is unrecognized, setup throws
argument_error, so the pipeline never reaches `run` and yields no
`RunResult` (hence no output stream and no write). -/
theorem cat_setup_rejects_unknown_clean (values : List String)
    (files : List (List (List Entity))) (close_bytes : Nat) :
    (except_ok (setup_clean values CleanOptions.zero) = true ↔
      ∀ v ∈ values, is_recognized_clean v = true) ∧
    ((∃ v ∈ values, is_recognized_clean v = false) →
      except_ok (command_pipeline values files close_bytes) = false) := by
  refine ⟨setup_clean_ok_iff values CleanOptions.zero, ?_⟩
  rintro ⟨v, hv, hfalse⟩
  cases hs : setup_clean values CleanOptions.zero with
  | ok a =>
    have hall := (setup_clean_ok_iff values CleanOptions.zero).mp (by rw [hs]; rfl)
    rw [hall v hv] at hfalse
    simp at hfalse
  | error e => simp [command_pipeline, hs, except_ok]

/-- Witness for C6: the spec scenario value foo is rejected, and the pipeline
for the argument list containing it produces no run result. -/
theorem cat_setup_rejects_unknown_clean_witness :
    (except_ok (setup_clean ["version", "foo"] CleanOptions.zero) = true ↔
      ∀ v ∈ ["version", "foo"], is_recognized_clean v = true) ∧
    except_ok (command_pipeline ["version", "foo"] [] 0) = false :=
  ⟨(cat_setup_rejects_unknown_clean ["version", "foo"] [] 0).1,
   (cat_setup_rejects_unknown_clean ["version", "foo"] [] 0).2
     ⟨"foo", by decide, by decide⟩⟩

/-- C7: the sink receives exactly the source chunks, processed in the same
relative order (the i-th forwarded buffer is the transform of the i-th read
buffer), and with no cleaning the output of `run` is the concatenation of the
input files' chunks in file-then-intra-file order, its total object count the
sum of the per-file counts. -/
theorem cat_preserves_order_and_counts (attrs : CleanOptions)
    (buffers : List (List Entity)) (files : List (List (List Entity)))
    (close_bytes : Nat) :
    copy attrs buffers = buffers.map (clean_buffer attrs) ∧
    (attrs.nonzero = false →
      (run attrs files close_bytes).output = files.flatten ∧
      ((run attrs files close_bytes).output.map List.length).sum =
        (files.map (fun f => (f.map List.length).sum)).sum) := by
  refine ⟨copy_eq_map attrs buffers, fun h => ?_⟩
  have hout : (run attrs files close_bytes).output = files.flatten := by
    rw [run_output_eq,
      list_map_congr (copy attrs) id files (fun f _ => copy_id attrs h f),
      List.map_id]
  exact ⟨hout, by rw [hout]; exact flatten_object_count files⟩

/-- Witness for C7 on a concrete two-file run with no cleaning. -/
theorem cat_preserves_order_and_counts_witness :
    CleanOptions.zero.nonzero = false ∧
    copy CleanOptions.zero [[sample_node], [sample_changeset]] =
      [[sample_node], [sample_changeset]].map (clean_buffer CleanOptions.zero) ∧
    (run CleanOptions.zero [[[sample_node]], [[sample_changeset], []]] 5).output =
      [[[sample_node]], [[sample_changeset], []]].flatten :=
  ⟨by decide,
   (cat_preserves_order_and_counts CleanOptions.zero [[sample_node], [sample_changeset]]
      [[[sample_node]], [[sample_changeset], []]] 5).1,
   ((cat_preserves_order_and_counts CleanOptions.zero [[sample_node], [sample_changeset]]
      [[[sample_node]], [[sample_changeset], []]] 5).2 (by decide)).1⟩

/-- C8: a size report appears on the verbose stream exactly when the byte
total returned by the writer is positive (0 bytes is never reported), the
completion marker is emitted exactly once, and it is the final message. -/
theorem cat_run_reports_size_and_done (attrs : CleanOptions)
    (files : List (List (List Entity))) (close_bytes : Nat) :
    (∀ n : Nat, Msg.wrote n ∈ (run attrs files close_bytes).messages ↔
      (n = close_bytes ∧ 0 < close_bytes)) ∧
    count_done (run attrs files close_bytes).messages = 1 ∧
    (run attrs files close_bytes).messages.getLast? = some Msg.done := by
  rw [run_messages_eq]
  refine ⟨?_, ?_, ?_⟩
  · intro n
    by_cases hc : 0 < close_bytes <;>
      simp [hc, List.mem_append, List.mem_map]
  · rw [count_done_append, count_done_append, count_done_copyings]
    by_cases hc : 0 < close_bytes
    · rw [if_pos hc]; rfl
    · rw [if_neg hc]; rfl
  · rw [List.getLast?_append_cons]
    rfl

/-- Witness for C8 on a single-file run that wrote 5 bytes. -/
theorem cat_run_reports_size_and_done_witness :
    (Msg.wrote 5 ∈ (run clean_user_uid [[[sample_node]]] 5).messages ↔
      (5 = 5 ∧ 0 < 5)) ∧
    count_done (run clean_user_uid [[[sample_node]]] 5).messages = 1 ∧
    (run clean_user_uid [[[sample_node]]] 5).messages.getLast? = some Msg.done :=
  ⟨(cat_run_reports_size_and_done clean_user_uid [[[sample_node]]] 5).1 5,
   (cat_run_reports_size_and_done clean_user_uid [[[sample_node]]] 5).2.1,
   (cat_run_reports_size_and_done clean_user_uid [[[sample_node]]] 5).2.2⟩

/-- C9: `run` always returns true; failure is signalled only by an exception
propagating from the reader or writer, never by the return value. -/
theorem cat_run_returns_true (attrs : CleanOptions)
    (files : List (List (List Entity))) (close_bytes : Nat) :
    (run attrs files close_bytes).result = true := by
  unfold run
  split <;> rfl

/-- Witness for C9 on a concrete run. -/
theorem cat_run_returns_true_witness :
    (run clean_uid_only [[[sample_changeset]]] 0).result = true :=
  cat_run_returns_true clean_uid_only [[[sample_changeset]]] 0

/-- `mem_str` agrees with list membership. -/
theorem mem_str_iff (s : String) (l : List String) : mem_str s l = true ↔ s ∈ l := by
  induction l with
  | nil => simp [mem_str]
  | cons c rest ih =>
    by_cases h : c = s
    · subst h
      simp [mem_str]
    · simp only [mem_str, if_neg h, ih, List.mem_cons]
      exact (or_iff_right (fun hsc => h hsc.symm)).symm

/-- Characterization of a successful clean-option loop: starting from any
bitmask, each flag ends up set iff it was set before or its name occurs among
the values — repetition and order of the values are irrelevant. -/
theorem setup_clean_char (values : List String) (attrs : CleanOptions)
    (h : ∀ v ∈ values, is_recognized_clean v = true) :
    setup_clean values attrs = Except.ok
      { clean_version := attrs.clean_version || mem_str "version" values
        clean_changeset := attrs.clean_changeset || mem_str "changeset" values
        clean_timestamp := attrs.clean_timestamp || mem_str "timestamp" values
        clean_uid := attrs.clean_uid || mem_str "uid" values
        clean_user := attrs.clean_user || mem_str "user" values } := by
  induction values generalizing attrs with
  | nil => simp [setup_clean, mem_str]
  | cons c rest ih =>
    have hc := h c (List.mem_cons_self c rest)
    have hrest : ∀ v ∈ rest, is_recognized_clean v = true :=
      fun v hv => h v (List.mem_cons_of_mem c hv)
    simp only [is_recognized_clean, Bool.or_eq_true, beq_iff_eq] at hc
    rcases hc with (((h1 | h1) | h1) | h1) | h1 <;> subst h1 <;>
      simp [setup_clean, apply_clean_value, ih _ hrest, mem_str]

/-- C10: the clean option list is interpreted as a set — two recognized value
lists with the same underlying set of names (whatever their order and
repetitions) produce the same clean attribute bitmask from setup. -/
theorem cat_setup_clean_set_semantics (v1 v2 : List String)
    (h1 : ∀ v ∈ v1, is_recognized_clean v = true)
    (h2 : ∀ v ∈ v2, is_recognized_clean v = true)
    (hset : ∀ s : String, s ∈ v1 ↔ s ∈ v2) :
    setup_clean v1 CleanOptions.zero = setup_clean v2 CleanOptions.zero := by
  have hco : ∀ s : String, mem_str s v1 = mem_str s v2 := by
    intro s
    have hiff : (mem_str s v1 = true) ↔ (mem_str s v2 = true) :=
      (mem_str_iff s v1).trans ((hset s).trans (mem_str_iff s v2).symm)
    cases hm1 : mem_str s v1 <;> cases hm2 : mem_str s v2 <;> simp_all
  rw [setup_clean_char v1 _ h1, setup_clean_char v2 _ h2]
  simp only [hco]

/-- Witness for C10: a duplicated, reordered value list gives the same
bitmask as the plain one, namely the user-and-uid set. -/
theorem cat_setup_clean_set_semantics_witness :
    setup_clean ["uid", "user", "uid"] CleanOptions.zero =
      setup_clean ["user", "uid"] CleanOptions.zero ∧
    setup_clean ["uid", "user", "uid"] CleanOptions.zero =
      Except.ok clean_user_uid :=
  ⟨cat_setup_clean_set_semantics ["uid", "user", "uid"] ["user", "uid"]
     (by decide) (by decide)
     (fun s => by
       simp only [List.mem_cons, List.not_mem_nil, or_false]
       tauto),
   rfl⟩

end OsmiumCat
